import Mathlib

/-!
# MCP7940N real-time clock over I2C (main.c)

A shallow embedding of `main.c`: the SMBus helper functions, `i2CSetupDevice`
and `main`.  The operating system and the bus are the environment: a `World`
fixes what `open`, the `I2C_SLAVE` ioctl and each `I2C_SMBUS` ioctl return.
Every system call and every `printf` of the program is recorded as an `Event`,
in program order.  `main` does not terminate once it polls, so it is given as
a step function on a machine state (`mainStep`), iterated by `mainRun`.

C `int` values are `Int`; the `__u8` parameters and `data.byte` are `Nat`
reduced `% 256`; the one bitwise operation on an `int` that may be negative
(`& ~(1<<7)`) goes through the 32-bit two-complement image.
-/

namespace RtcI2c

/-! ## Constants of main.c -/

/-- Macro `RTC_ADDRESS`, the 7-bit address of the chip (0b1101111). -/
def RTC_ADDRESS : Nat := 0x6F
/-- Macro `ADDR_SEC`, address of the SECONDS register. -/
def ADDR_SEC : Nat := 0x00
/-- Macro `ADDR_MIN`, address of the MINUTES register. -/
def ADDR_MIN : Nat := 0x01
/-- Macro `ADDR_HOUR`, address of the HOURS register. -/
def ADDR_HOUR : Nat := 0x02
/-- Macro `START_32KHZ`, start crystal: ST = b7 of the SECONDS register. -/
def START_32KHZ : Nat := 0x80
/-- Macro `HOUR_12`, 12 hours format bit of the HOURS register; no function of main.c uses it. -/
def HOUR_12 : Nat := 0x40
/-- Macro `PM`, post-meridian bit of the HOURS register; no function of main.c uses it. -/
def PM : Nat := 0x20

/-! ## Constants of the Linux headers `linux/i2c.h`, `linux/i2c-dev.h` -/

/-- Value of `I2C_SMBUS_READ` in `linux/i2c.h`. -/
def I2C_SMBUS_READ : Nat := 1
/-- Value of `I2C_SMBUS_WRITE` in `linux/i2c.h`. -/
def I2C_SMBUS_WRITE : Nat := 0
/-- Value of `I2C_SMBUS_BYTE_DATA` in `linux/i2c.h`. -/
def I2C_SMBUS_BYTE_DATA : Nat := 2

/-! ## Environment and events -/

/-- What one `ioctl(file, I2C_SMBUS, &args)` does: the value it returns and
the content of `data.byte` when it comes back. -/
structure BusOutcome where
  status : Int
  byte : Nat
  deriving DecidableEq, Repr

/-- The environment of one run of the program. -/
structure World where
  /-- Return value of `open (devBus, O_RDWR)`. -/
  openRet : Int
  /-- Return value of `ioctl (fd, I2C_SLAVE, devAddress)`. -/
  slaveRet : Int
  /-- Outcome of the k-th `I2C_SMBUS` ioctl of the run, k = 0, 1, 2, ... -/
  bus : Nat → BusOutcome
  /-- Text of `strerror(errno)` after a failed call. -/
  errText : String

/-- The observable actions of the program, one per system or library call. -/
inductive Event where
  | openDev (path : String) (ret : Int)
  | ioctlSlave (fd : Int) (addr : Nat) (ret : Int)
  | ioctlSmbus (fd : Int) (readWrite : Nat) (command : Nat) (size : Nat)
      (dataByte : Option Nat) (ret : Int)
  | printf (text : String)
  | usleep (usec : Nat)
  | close (fd : Int)
  deriving DecidableEq, Repr

/-! ## The SMBus helpers -/

/-- Function `i2c_smbus_access`: fills `args` and returns what the ioctl returns.
`dataByte` is the content of `data->byte` on entry when the caller set it. -/
def i2c_smbus_access (file : Int) (read_write : Nat) (command : Nat) (size : Nat)
    (dataByte : Option Nat) (o : BusOutcome) : Int × List Event :=
  (o.status, [Event.ioctlSmbus file read_write (command % 256) size dataByte o.status])

/-- Function `i2c_smbus_write_byte_data`: `data.byte = value`, returns the access status. -/
def i2c_smbus_write_byte_data (file : Int) (command : Nat) (value : Nat)
    (o : BusOutcome) : Int × List Event :=
  i2c_smbus_access file I2C_SMBUS_WRITE command I2C_SMBUS_BYTE_DATA (some (value % 256)) o

/-- Function `i2c_smbus_read_byte_data`: `-1` on a non-zero status, else `data.byte`. -/
def i2c_smbus_read_byte_data (file : Int) (command : Nat) (o : BusOutcome) :
    Int × List Event :=
  let r := i2c_smbus_access file I2C_SMBUS_READ command I2C_SMBUS_BYTE_DATA none o
  if r.1 ≠ 0 then (-1, r.2) else (((o.byte % 256 : Nat) : Int), r.2)

/-! ## i2CSetupDevice -/

/-- Function `i2CSetupDevice`: open the bus, select the slave address.  Both failure
branches return `-1`; the second one returns without closing `fd`. -/
def i2CSetupDevice (devBus : String) (devAddress : Nat) (w : World) : Int × List Event :=
  let fd := w.openRet
  if fd < 0 then
    (-1, [Event.openDev devBus fd,
          Event.printf ("Unable to open I2C device: " ++ w.errText ++ "\n")])
  else if w.slaveRet < 0 then
    (-1, [Event.openDev devBus fd, Event.ioctlSlave fd devAddress w.slaveRet,
          Event.printf ("Unable to select I2C device: " ++ w.errText ++ "\n")])
  else
    (fd, [Event.openDev devBus fd, Event.ioctlSlave fd devAddress w.slaveRet])

/-! ## C integer operations and printf conversions used by main -/

/-- The 32-bit unsigned image of a C `int`. -/
def toU32 (x : Int) : Nat := (x % 4294967296).toNat

/-- The C `int` with a given 32-bit image. -/
def ofU32 (n : Nat) : Int :=
  if n % 4294967296 < 2147483648 then ((n % 4294967296 : Nat) : Int)
  else ((n % 4294967296 : Nat) : Int) - 4294967296

/-- C `a & b` on `int`. -/
def andInt (a b : Int) : Int := ofU32 (toU32 a &&& toU32 b)

/-- C `~a` on `int`. -/
def notInt (a : Int) : Int := ofU32 (4294967295 - toU32 a)

/-- Left-pad a digit string with zeros up to the precision. -/
def padZeros (prec : Nat) (ds : List Char) : List Char :=
  List.replicate (prec - ds.length) '0' ++ ds

/-- The printf conversion `%.<prec>d` of an `int`. -/
def fmtDec (prec : Nat) (x : Int) : String :=
  if x < 0 then String.mk ('-' :: padZeros prec (Nat.toDigits 10 (-x).toNat))
  else String.mk (padZeros prec (Nat.toDigits 10 x.toNat))

/-- The printf conversion `%.<prec>x` of an `int` (read as `unsigned int`). -/
def fmtHex (prec : Nat) (x : Int) : String :=
  String.mk (padZeros prec (Nat.toDigits 16 (toU32 x)))

/-- The text of `printf(" Time : %.2d:%.2d:%.2x\n",hr,min,sec)`. -/
def timeLine (hr min sec : Int) : String :=
  " Time : " ++ fmtDec 2 hr ++ ":" ++ fmtDec 2 min ++ ":" ++ fmtHex 2 sec ++ "\n"

/-! ## main -/

/-- Where `main` stands: before the setup call, before the oscillator write,
at the head of `while(1)`, at the `if(fd > 0)` after the `do ... while(0)`,
or returned. -/
inductive Pc where
  | setup | enable | loop | cleanup | halted
  deriving DecidableEq, Repr

/-- The state of `main`: its local variables, the number of SMBus ioctls issued
so far, the events so far and the value returned once it has returned. -/
structure Machine where
  pc : Pc
  sec : Int
  hr : Int
  min : Int
  fd : Int
  ret : Int
  txn : Nat
  trace : List Event
  returned : Option Int

/-- The state on entry of `main`: `sec`, `hr`, `min`, `fd`, `ret` are 0. -/
def Machine.init : Machine :=
  ⟨Pc.setup, 0, 0, 0, 0, 0, 0, [], none⟩

/-- One pass of the `while(1)` body on descriptor `fd`, given the outcomes of
its three reads: the new `sec`, `min`, `hr` and the events. -/
def pollCycle (fd : Int) (o1 o2 o3 : BusOutcome) : (Int × Int × Int) × List Event :=
  let r1 := i2c_smbus_read_byte_data fd ADDR_SEC o1
  let sec := andInt r1.1 (notInt ((1 <<< 7 : Nat) : Int))
  let r2 := i2c_smbus_read_byte_data fd ADDR_MIN o2
  let min := r2.1
  let r3 := i2c_smbus_read_byte_data fd ADDR_HOUR o3
  let hr := r3.1
  ((sec, min, hr),
    r1.2 ++ r2.2 ++ r3.2 ++ [Event.printf (timeLine hr min sec), Event.usleep 1000000])

/-- One block of `main`: the setup call with its check, the oscillator write
with its check, one pass of the `while(1)` body, or the code after the
`do ... while(0)`. -/
def mainStep (w : World) (m : Machine) : Machine :=
  match m.pc with
  | Pc.setup =>
    let r := i2CSetupDevice "/dev/i2c-1" RTC_ADDRESS w
    if r.1 < 0 then
      { m with fd := r.1, pc := Pc.cleanup,
               trace := m.trace ++ r.2 ++ [Event.printf "Unable to open i2c device file \n"] }
    else
      { m with fd := r.1, pc := Pc.enable, trace := m.trace ++ r.2 }
  | Pc.enable =>
    let r := i2c_smbus_write_byte_data m.fd ADDR_SEC START_32KHZ (w.bus m.txn)
    if r.1 < 0 then
      { m with ret := r.1, txn := m.txn + 1, pc := Pc.cleanup,
               trace := m.trace ++ r.2 ++ [Event.printf "Error writing data\n"] }
    else
      { m with ret := r.1, txn := m.txn + 1, pc := Pc.loop, trace := m.trace ++ r.2 }
  | Pc.loop =>
    let c := pollCycle m.fd (w.bus m.txn) (w.bus (m.txn + 1)) (w.bus (m.txn + 2))
    { m with sec := c.1.1, min := c.1.2.1, hr := c.1.2.2, txn := m.txn + 3,
             pc := Pc.loop, trace := m.trace ++ c.2 }
  | Pc.cleanup =>
    if m.fd > 0 then
      { m with pc := Pc.halted, trace := m.trace ++ [Event.close m.fd], returned := some 0 }
    else
      { m with pc := Pc.halted, returned := some 0 }
  | Pc.halted => m

/-- The state of `main` after `n` blocks. -/
def mainRun (w : World) : Nat → Machine → Machine
  | 0, m => m
  | n + 1, m => mainRun w n (mainStep w m)

/-- The state of `main` after `n` blocks from program entry. -/
def mainFrom (w : World) (n : Nat) : Machine := mainRun w n Machine.init

/-! ## Reading a trace -/

/-- The SMBus transactions of a trace, in order: read/write flag, register,
transfer size and the byte handed in for a write. -/
def smbusOf : List Event → List (Nat × Nat × Nat × Option Nat)
  | [] => []
  | Event.ioctlSmbus _ rw command size d _ :: es => (rw, command, size, d) :: smbusOf es
  | _ :: es => smbusOf es

/-- The descriptors a trace obtained from a successful `open`, in order. -/
def opensOf : List Event → List Int
  | [] => []
  | Event.openDev _ ret :: es => if 0 ≤ ret then ret :: opensOf es else opensOf es
  | _ :: es => opensOf es

/-- The descriptors a trace passed to `close`, in order. -/
def closesOf : List Event → List Int
  | [] => []
  | Event.close fd :: es => fd :: closesOf es
  | _ :: es => closesOf es

/-- The device addresses a trace passed to the `I2C_SLAVE` ioctl, in order. -/
def slaveAddrsOf : List Event → List Nat
  | [] => []
  | Event.ioctlSlave _ addr _ :: es => addr :: slaveAddrsOf es
  | _ :: es => slaveAddrsOf es

/-- The texts a trace printed, in order. -/
def printsOf : List Event → List String
  | [] => []
  | Event.printf t :: es => t :: printsOf es
  | _ :: es => printsOf es

/-- The byte-data write of `value` to register `command`, as `smbusOf` shows it. -/
def writeTxn (command value : Nat) : Nat × Nat × Nat × Option Nat :=
  (I2C_SMBUS_WRITE, command, I2C_SMBUS_BYTE_DATA, some value)

/-- The byte-data read of register `command`, as `smbusOf` shows it. -/
def readTxn (command : Nat) : Nat × Nat × Nat × Option Nat :=
  (I2C_SMBUS_READ, command, I2C_SMBUS_BYTE_DATA, none)

/-! ## The decode rules as the specification words them -/

/-- Specification formula `bcdToDecimal(b) = (b>>4)*10 + (b & 0x0F)`. -/
def specBcdToDecimal (b : Nat) : Nat := (b >>> 4) * 10 + (b &&& 0x0F)

/-- The two-digit decimal rendering of a number below 100: tens digit, units digit. -/
def specTwoDigits (n : Nat) : String :=
  String.mk [Nat.digitChar (n / 10), Nat.digitChar (n % 10)]

/-- Hour mode of the specification: 24-hour, 12-hour AM, 12-hour PM. -/
inductive HourMode where
  | h24 | am | pm
  deriving DecidableEq, Repr

/-- Hours decode as the specification words it: bit 6 selects 12-hour mode; when
set, bit 5 is the PM flag and bits 4-0 are the BCD hour; when clear, bits 5-0
are the BCD hour. -/
def specDecodeHours (b : Nat) : HourMode × Nat :=
  if b &&& 0x40 ≠ 0 then
    (if b &&& 0x20 ≠ 0 then HourMode.pm else HourMode.am, specBcdToDecimal (b &&& 0x1F))
  else
    (HourMode.h24, specBcdToDecimal (b &&& 0x3F))

/-- The SMBus transactions of `k` passes of the `while(1)` body: per pass the
byte-data reads of `ADDR_SEC`, `ADDR_MIN`, `ADDR_HOUR`, in this order. -/
def pollTxns : Nat → List (Nat × Nat × Nat × Option Nat)
  | 0 => []
  | k + 1 => readTxn ADDR_SEC :: readTxn ADDR_MIN :: readTxn ADDR_HOUR :: pollTxns k

/-- A world in which setup succeeds on descriptor `fd` and every SMBus ioctl
has the same outcome `o`. -/
def constWorld (fd : Int) (o : BusOutcome) : World :=
  ⟨fd, 0, fun _ => o, ""⟩

/-! ## Facts about the helpers -/

set_option maxRecDepth 100000

theorem read_events (file : Int) (command : Nat) (o : BusOutcome) :
    (i2c_smbus_read_byte_data file command o).2 =
      [Event.ioctlSmbus file I2C_SMBUS_READ (command % 256) I2C_SMBUS_BYTE_DATA none o.status] := by
  by_cases h : o.status = 0 <;> simp [i2c_smbus_read_byte_data, i2c_smbus_access, h]

theorem read_value (file : Int) (command : Nat) (o : BusOutcome) :
    (i2c_smbus_read_byte_data file command o).1 =
      if o.status ≠ 0 then -1 else ((o.byte % 256 : Nat) : Int) := by
  by_cases h : o.status = 0 <;> simp [i2c_smbus_read_byte_data, i2c_smbus_access, h]

theorem read_ok (file : Int) (command b : Nat) (hb : b < 256) :
    (i2c_smbus_read_byte_data file command ⟨0, b⟩).1 = (b : Int) := by
  rw [read_value]
  simp [Nat.mod_eq_of_lt hb]

theorem pollCycle_events (fd : Int) (o1 o2 o3 : BusOutcome) :
    (pollCycle fd o1 o2 o3).2 =
      [Event.ioctlSmbus fd I2C_SMBUS_READ ADDR_SEC I2C_SMBUS_BYTE_DATA none o1.status,
       Event.ioctlSmbus fd I2C_SMBUS_READ ADDR_MIN I2C_SMBUS_BYTE_DATA none o2.status,
       Event.ioctlSmbus fd I2C_SMBUS_READ ADDR_HOUR I2C_SMBUS_BYTE_DATA none o3.status,
       Event.printf (timeLine (pollCycle fd o1 o2 o3).1.2.2 (pollCycle fd o1 o2 o3).1.2.1
         (pollCycle fd o1 o2 o3).1.1),
       Event.usleep 1000000] := by
  simp only [pollCycle, read_events]
  rfl

theorem pollCycle_sec (fd : Int) (o1 o2 o3 : BusOutcome) :
    (pollCycle fd o1 o2 o3).1.1 =
      andInt (i2c_smbus_read_byte_data fd ADDR_SEC o1).1 (notInt ((1 <<< 7 : Nat) : Int)) := rfl

theorem pollCycle_min (fd : Int) (o1 o2 o3 : BusOutcome) :
    (pollCycle fd o1 o2 o3).1.2.1 = (i2c_smbus_read_byte_data fd ADDR_MIN o2).1 := rfl

theorem pollCycle_hr (fd : Int) (o1 o2 o3 : BusOutcome) :
    (pollCycle fd o1 o2 o3).1.2.2 = (i2c_smbus_read_byte_data fd ADDR_HOUR o3).1 := rfl

theorem secField_bcd : ∀ b : Nat, b < 256 → (b &&& 0x7F) / 16 ≤ 9 → (b &&& 0x7F) % 16 ≤ 9 →
    fmtHex 2 (andInt (b : Int) (notInt ((1 <<< 7 : Nat) : Int)))
      = specTwoDigits (specBcdToDecimal (b &&& 0x7F)) := by
  decide

theorem secValue_mask : ∀ b : Nat, b < 256 →
    andInt (b : Int) (notInt ((1 <<< 7 : Nat) : Int)) = ((b &&& 0x7F : Nat) : Int) := by
  decide

theorem secValue_bit7 : ∀ b : Nat, b < 256 →
    andInt (((b ||| 0x80) % 256 : Nat) : Int) (notInt ((1 <<< 7 : Nat) : Int))
      = andInt (((b &&& 0x7F) % 256 : Nat) : Int) (notInt ((1 <<< 7 : Nat) : Int)) := by
  decide

theorem secBcd_range : ∀ b : Nat, b < 256 → (b &&& 0x7F) / 16 ≤ 5 → (b &&& 0x7F) % 16 ≤ 9 →
    specBcdToDecimal (b &&& 0x7F) = ((b &&& 0x7F) >>> 4) * 10 + (b &&& 0x0F) ∧
    specBcdToDecimal (b &&& 0x7F) ≤ 59 := by
  decide

theorem hourField_digit : ∀ b : Nat, b ≤ 9 →
    fmtDec 2 (b : Int) = specTwoDigits (specBcdToDecimal (b &&& 0x3F)) ∧
    specDecodeHours b = (HourMode.h24, b) := by
  decide

theorem setup_value (devBus : String) (devAddress : Nat) (w : World) :
    (i2CSetupDevice devBus devAddress w).1 =
      if w.openRet < 0 then -1 else if w.slaveRet < 0 then -1 else w.openRet := by
  by_cases h1 : w.openRet < 0 <;> by_cases h2 : w.slaveRet < 0 <;>
    simp [i2CSetupDevice, h1, h2]

/-! ## The claims on the register reads and on one poll cycle -/

/-- C1: for a successfully read seconds byte `b` whose masked value `b & 0x7F`
has both nibbles at most 9, the seconds value of the cycle is `b & 0x7F`, its
`%.2x` rendering (the seconds field of the printed line) is the two-digit
decimal rendering of `bcdToDecimal(b & 0x7F)`, bit 7 of `b` does not change
the cycle, and a valid seconds BCD (tens digit at most 5) is reported as a
value in [0,59]. -/
theorem seconds_reported_as_bcd (fd : Int) (o2 o3 : BusOutcome) (b : Nat) (hb : b < 256)
    (hhi : (b &&& 0x7F) / 16 ≤ 9) (hlo : (b &&& 0x7F) % 16 ≤ 9) :
    (pollCycle fd ⟨0, b⟩ o2 o3).1.1 = ((b &&& 0x7F : Nat) : Int) ∧
    fmtHex 2 (pollCycle fd ⟨0, b⟩ o2 o3).1.1 = specTwoDigits (specBcdToDecimal (b &&& 0x7F)) ∧
    printsOf (pollCycle fd ⟨0, b⟩ o2 o3).2 =
      [" Time : " ++ fmtDec 2 (pollCycle fd ⟨0, b⟩ o2 o3).1.2.2 ++ ":"
        ++ fmtDec 2 (pollCycle fd ⟨0, b⟩ o2 o3).1.2.1 ++ ":"
        ++ specTwoDigits (specBcdToDecimal (b &&& 0x7F)) ++ "\n"] ∧
    pollCycle fd ⟨0, b ||| 0x80⟩ o2 o3 = pollCycle fd ⟨0, b &&& 0x7F⟩ o2 o3 ∧
    ((b &&& 0x7F) / 16 ≤ 5 →
      specBcdToDecimal (b &&& 0x7F) = ((b &&& 0x7F) >>> 4) * 10 + (b &&& 0x0F) ∧
      specBcdToDecimal (b &&& 0x7F) ≤ 59) := by
  have hsec : (pollCycle fd ⟨0, b⟩ o2 o3).1.1 =
      andInt (b : Int) (notInt ((1 <<< 7 : Nat) : Int)) := by
    rw [pollCycle_sec, read_ok fd ADDR_SEC b hb]
  have hfield := secField_bcd b hb hhi hlo
  refine ⟨?_, ?_, ?_, ?_, ?_⟩
  · rw [hsec, secValue_mask b hb]
  · rw [hsec, hfield]
  · rw [pollCycle_events]
    simp only [printsOf, timeLine]
    rw [hsec, hfield]
  · have h7 := secValue_bit7 b hb
    simp only [pollCycle, read_events, read_value] at h7 ⊢
    simp only [ne_eq, not_true_eq_false, if_false] at h7 ⊢
    rw [h7]
  · intro h5
    exact secBcd_range b hb h5 hlo

/-- Witness of C1 at the seconds byte 0xD9 (oscillator bit set, 59 seconds). -/
theorem seconds_reported_as_bcd_witness :
    (pollCycle 3 ⟨0, 0xD9⟩ ⟨0, 0⟩ ⟨0, 0⟩).1.1 = 0x59 ∧
    fmtHex 2 (pollCycle 3 ⟨0, 0xD9⟩ ⟨0, 0⟩ ⟨0, 0⟩).1.1 = "59" ∧
    specBcdToDecimal (0xD9 &&& 0x7F) = 59 ∧
    printsOf (pollCycle 3 ⟨0, 0xD9⟩ ⟨0, 0⟩ ⟨0, 0⟩).2 = [" Time : 00:00:59\n"] :=
  have h := seconds_reported_as_bcd 3 ⟨0, 0⟩ ⟨0, 0⟩ 0xD9 (by decide) (by decide) (by decide)
  ⟨h.1, by decide, by decide, by decide⟩

/-- C2, as stated, fails at the hours byte 0x64: the specification decodes it
as 12-hour PM, hour 4, while the cycle of `main` keeps the whole byte as its
hour value (100) and prints that number. -/
theorem hours_0x64_not_decoded :
    specDecodeHours 0x64 = (HourMode.pm, 4) ∧
    (pollCycle 3 ⟨0, 0⟩ ⟨0, 0⟩ ⟨0, 0x64⟩).1.2.2 = 100 ∧
    printsOf (pollCycle 3 ⟨0, 0⟩ ⟨0, 0⟩ ⟨0, 0x64⟩).2 = [" Time : 100:00:00\n"] ∧
    (pollCycle 3 ⟨0, 0⟩ ⟨0, 0⟩ ⟨0, 0x64⟩).1.2.2 ≠ (((specDecodeHours 0x64).2 : Nat) : Int) := by
  decide

/-- C2 as amended: for a successfully read hours byte `b`, `main` does not
branch on bit 6 and derives no PM flag: the hour value of the cycle is the
whole byte `b`, and the cycle prints exactly one line, built from the three
numbers hour, minutes, seconds and nothing else; for `b` in 0x00..0x09 the
hour field of that line is the two-digit BCD value of bits 5-0, which is the
24-hour decode of the specification. -/
theorem hours_whole_byte (fd : Int) (o1 o2 : BusOutcome) (b : Nat) (hb : b < 256) :
    (pollCycle fd o1 o2 ⟨0, b⟩).1.2.2 = (b : Int) ∧
    printsOf (pollCycle fd o1 o2 ⟨0, b⟩).2 =
      [timeLine (b : Int) (pollCycle fd o1 o2 ⟨0, b⟩).1.2.1 (pollCycle fd o1 o2 ⟨0, b⟩).1.1] ∧
    (b ≤ 9 →
      fmtDec 2 (pollCycle fd o1 o2 ⟨0, b⟩).1.2.2 = specTwoDigits (specBcdToDecimal (b &&& 0x3F)) ∧
      specDecodeHours b = (HourMode.h24, b)) := by
  have hhr : (pollCycle fd o1 o2 ⟨0, b⟩).1.2.2 = (b : Int) := by
    rw [pollCycle_hr, read_ok fd ADDR_HOUR b hb]
  refine ⟨hhr, ?_, ?_⟩
  · rw [pollCycle_events]
    simp only [printsOf]
    rw [hhr]
  · intro h9
    rw [hhr]
    exact hourField_digit b h9

/-- Witness of the amended C2 at the hours byte 0x00: hour value 0, printed as 00. -/
theorem hours_whole_byte_witness :
    (pollCycle 3 ⟨0, 0⟩ ⟨0, 0⟩ ⟨0, 0x00⟩).1.2.2 = 0 ∧
    fmtDec 2 (pollCycle 3 ⟨0, 0⟩ ⟨0, 0⟩ ⟨0, 0x00⟩).1.2.2 = "00" ∧
    specDecodeHours 0x00 = (HourMode.h24, 0) :=
  have h := hours_whole_byte 3 ⟨0, 0⟩ ⟨0, 0⟩ 0x00 (by decide)
  ⟨h.1, by decide, (h.2.2 (by decide)).2⟩

/-- C3 fails on the code: the minutes byte 0x59 (BCD for 59 minutes, both
nibbles at most 9) is printed with `%.2d` as 89, while the seconds byte 0x59 of
the same line is printed with `%.2x` as 59. -/
theorem minutes_printed_raw :
    specBcdToDecimal 0x59 = 59 ∧
    (pollCycle 3 ⟨0, 0x59⟩ ⟨0, 0x59⟩ ⟨0, 0⟩).1.2.1 = 89 ∧
    printsOf (pollCycle 3 ⟨0, 0x59⟩ ⟨0, 0x59⟩ ⟨0, 0⟩).2 = [" Time : 00:89:59\n"] := by
  decide

/-- C4: `i2c_smbus_read_byte_data` returns -1 exactly when the bus access
returns a non-zero status; otherwise it returns the delivered byte, which lies
in [0,255]; it issues one SMBus ioctl in both cases. -/
theorem read_byte_data_result (file : Int) (command : Nat) (o : BusOutcome) :
    ((i2c_smbus_read_byte_data file command o).1 = -1 ↔ o.status ≠ 0) ∧
    (o.status = 0 →
      (i2c_smbus_read_byte_data file command o).1 = ((o.byte % 256 : Nat) : Int) ∧
      0 ≤ (i2c_smbus_read_byte_data file command o).1 ∧
      (i2c_smbus_read_byte_data file command o).1 ≤ 255) ∧
    (i2c_smbus_read_byte_data file command o).1 =
      (if (i2c_smbus_access file I2C_SMBUS_READ command I2C_SMBUS_BYTE_DATA none o).1 ≠ 0
        then -1 else ((o.byte % 256 : Nat) : Int)) := by
  have hlt : o.byte % 256 < 256 := Nat.mod_lt _ (by decide)
  rw [read_value]
  refine ⟨?_, ?_, ?_⟩
  · by_cases h : o.status = 0
    · simp only [h, ne_eq, not_true_eq_false, if_false, iff_false]
      omega
    · simp [h]
  · intro h
    simp only [h, ne_eq, not_true_eq_false, if_false, true_and]
    omega
  · rfl

/-- Witness of C4: a failed access (status -1) gives -1, a successful one
delivering 0xFF gives 255. -/
theorem read_byte_data_result_witness :
    (i2c_smbus_read_byte_data 3 ADDR_SEC ⟨-1, 0x12⟩).1 = -1 ∧
    (i2c_smbus_read_byte_data 3 ADDR_SEC ⟨0, 0xFF⟩).1 = 255 :=
  ⟨(read_byte_data_result 3 ADDR_SEC ⟨-1, 0x12⟩).1.mpr (by decide),
   ((read_byte_data_result 3 ADDR_SEC ⟨0, 0xFF⟩).2.1 rfl).1⟩

/-- C5 fails on the code: when the minutes read of a cycle fails (status -1)
while the seconds and hours reads succeed, the cycle still prints a time line,
with seconds and hours decoded and the error value -1 in the minutes field;
when the seconds read fails the masked error value is printed as ffffff7f. -/
theorem failed_read_still_printed :
    (pollCycle 3 ⟨0, 0x12⟩ ⟨-1, 0⟩ ⟨0, 0x08⟩).1 = (0x12, -1, 0x08) ∧
    printsOf (pollCycle 3 ⟨0, 0x12⟩ ⟨-1, 0⟩ ⟨0, 0x08⟩).2 = [" Time : 08:-01:12\n"] ∧
    printsOf (pollCycle 3 ⟨-1, 0⟩ ⟨0, 0x34⟩ ⟨0, 0x08⟩).2 = [" Time : 08:52:ffffff7f\n"] := by
  decide

/-- C6: `i2CSetupDevice` returns -1 when `open` fails and when `open` succeeds
but the address selection fails; when both succeed it returns the descriptor
from `open`, which is non-negative; so its result is negative exactly when
setup failed. -/
theorem setup_result (devBus : String) (devAddress : Nat) (w : World) :
    (w.openRet < 0 → (i2CSetupDevice devBus devAddress w).1 = -1) ∧
    (0 ≤ w.openRet → w.slaveRet < 0 → (i2CSetupDevice devBus devAddress w).1 = -1) ∧
    (0 ≤ w.openRet → 0 ≤ w.slaveRet →
      (i2CSetupDevice devBus devAddress w).1 = w.openRet ∧
      0 ≤ (i2CSetupDevice devBus devAddress w).1) ∧
    ((i2CSetupDevice devBus devAddress w).1 < 0 ↔
      (w.openRet < 0 ∨ (0 ≤ w.openRet ∧ w.slaveRet < 0))) := by
  rw [setup_value]
  refine ⟨?_, ?_, ?_, ?_⟩ <;> split_ifs <;> omega

/-- Witness of C6: open failing, address selection failing, and both
succeeding on descriptor 0. -/
theorem setup_result_witness :
    (i2CSetupDevice "/dev/i2c-1" RTC_ADDRESS ⟨-1, 0, fun _ => ⟨0, 0⟩, "ENOENT"⟩).1 = -1 ∧
    (i2CSetupDevice "/dev/i2c-1" RTC_ADDRESS ⟨3, -1, fun _ => ⟨0, 0⟩, "EBUSY"⟩).1 = -1 ∧
    (i2CSetupDevice "/dev/i2c-1" RTC_ADDRESS ⟨0, 0, fun _ => ⟨0, 0⟩, ""⟩).1 = 0 :=
  ⟨(setup_result "/dev/i2c-1" RTC_ADDRESS ⟨-1, 0, fun _ => ⟨0, 0⟩, "ENOENT"⟩).1 (by decide),
   (setup_result "/dev/i2c-1" RTC_ADDRESS ⟨3, -1, fun _ => ⟨0, 0⟩, "EBUSY"⟩).2.1
     (by decide) (by decide),
   ((setup_result "/dev/i2c-1" RTC_ADDRESS ⟨0, 0, fun _ => ⟨0, 0⟩, ""⟩).2.2.1
     (by decide) (by decide)).1⟩

/-! ## Facts about runs of main -/

theorem smbusOf_append (a b : List Event) : smbusOf (a ++ b) = smbusOf a ++ smbusOf b := by
  induction a with
  | nil => rfl
  | cons e es ih => cases e <;> simp [smbusOf, ih]

theorem closesOf_append (a b : List Event) : closesOf (a ++ b) = closesOf a ++ closesOf b := by
  induction a with
  | nil => rfl
  | cons e es ih => cases e <;> simp [closesOf, ih]

theorem slaveAddrsOf_append (a b : List Event) :
    slaveAddrsOf (a ++ b) = slaveAddrsOf a ++ slaveAddrsOf b := by
  induction a with
  | nil => rfl
  | cons e es ih => cases e <;> simp [slaveAddrsOf, ih]

theorem mainRun_add (w : World) (a b : Nat) (m : Machine) :
    mainRun w (a + b) m = mainRun w b (mainRun w a m) := by
  induction a generalizing m with
  | zero => simp [mainRun]
  | succ a ih => rw [Nat.succ_add]; exact ih (mainStep w m)

theorem mainFrom_add (w : World) (a b : Nat) :
    mainFrom w (a + b) = mainRun w b (mainFrom w a) :=
  mainRun_add w a b Machine.init

theorem run_halted (w : World) (m : Machine) (h : m.pc = Pc.halted) (n : Nat) :
    mainRun w n m = m := by
  induction n with
  | zero => rfl
  | succ n ih =>
    have hs : mainStep w m = m := by simp [mainStep, h]
    simp only [mainRun, hs, ih]

theorem step_loop (w : World) (m : Machine) (h : m.pc = Pc.loop) :
    (mainStep w m).pc = Pc.loop ∧ (mainStep w m).fd = m.fd ∧
    (mainStep w m).returned = m.returned ∧ (mainStep w m).txn = m.txn + 3 ∧
    (mainStep w m).trace =
      m.trace ++ (pollCycle m.fd (w.bus m.txn) (w.bus (m.txn + 1)) (w.bus (m.txn + 2))).2 := by
  simp [mainStep, h]

theorem pollCycle_smbus (fd : Int) (o1 o2 o3 : BusOutcome) :
    smbusOf (pollCycle fd o1 o2 o3).2 =
      [readTxn ADDR_SEC, readTxn ADDR_MIN, readTxn ADDR_HOUR] ∧
    closesOf (pollCycle fd o1 o2 o3).2 = [] ∧
    slaveAddrsOf (pollCycle fd o1 o2 o3).2 = [] := by
  rw [pollCycle_events]
  simp [smbusOf, closesOf, slaveAddrsOf, readTxn]

theorem run_loop (w : World) (n : Nat) : ∀ m : Machine, m.pc = Pc.loop →
    (mainRun w n m).pc = Pc.loop ∧ (mainRun w n m).fd = m.fd ∧
    (mainRun w n m).returned = m.returned ∧ (mainRun w n m).txn = m.txn + 3 * n ∧
    smbusOf (mainRun w n m).trace = smbusOf m.trace ++ pollTxns n ∧
    closesOf (mainRun w n m).trace = closesOf m.trace ∧
    slaveAddrsOf (mainRun w n m).trace = slaveAddrsOf m.trace := by
  induction n with
  | zero => intro m h; simp [mainRun, h, pollTxns]
  | succ n ih =>
    intro m h
    obtain ⟨s1, s2, s3, s4, s5⟩ := step_loop w m h
    obtain ⟨r1, r2, r3, r4, r5, r6, r7⟩ := ih (mainStep w m) s1
    obtain ⟨c1, c2, c3⟩ :=
      pollCycle_smbus m.fd (w.bus m.txn) (w.bus (m.txn + 1)) (w.bus (m.txn + 2))
    simp only [mainRun]
    refine ⟨r1, r2.trans s2, r3.trans s3, ?_, ?_, ?_, ?_⟩
    · rw [r4, s4]; omega
    · rw [r5, s5, smbusOf_append, c1]; simp [pollTxns]
    · rw [r6, s5, closesOf_append, c2]; simp
    · rw [r7, s5, slaveAddrsOf_append, c3]; simp

theorem run_cleanup (w : World) (m : Machine) (h : m.pc = Pc.cleanup) (n : Nat) :
    smbusOf (mainRun w n m).trace = smbusOf m.trace ∧
    slaveAddrsOf (mainRun w n m).trace = slaveAddrsOf m.trace ∧
    (mainRun w (n + 1) m).pc = Pc.halted ∧ (mainRun w (n + 1) m).returned = some 0 := by
  have hs : (mainStep w m).pc = Pc.halted ∧ (mainStep w m).returned = some 0 ∧
      smbusOf (mainStep w m).trace = smbusOf m.trace ∧
      slaveAddrsOf (mainStep w m).trace = slaveAddrsOf m.trace := by
    by_cases hfd : m.fd > 0 <;>
      simp [mainStep, h, hfd, smbusOf_append, slaveAddrsOf_append, smbusOf, slaveAddrsOf]
  have hn : mainRun w (n + 1) m = mainStep w m := by
    simp only [mainRun]
    exact run_halted w _ hs.1 n
  refine ⟨?_, ?_, ?_, ?_⟩
  · cases n with
    | zero => rfl
    | succ k => simp only [mainRun, run_halted w _ hs.1 k, hs.2.2.1]
  · cases n with
    | zero => rfl
    | succ k => simp only [mainRun, run_halted w _ hs.1 k, hs.2.2.2]
  · rw [hn]; exact hs.1
  · rw [hn]; exact hs.2.1

theorem mainFrom_one_fail (w : World) (h : w.openRet < 0 ∨ (0 ≤ w.openRet ∧ w.slaveRet < 0)) :
    (mainFrom w 1).pc = Pc.cleanup ∧ (mainFrom w 1).fd = -1 ∧
    smbusOf (mainFrom w 1).trace = [] ∧
    slaveAddrsOf (mainFrom w 1).trace = if 0 ≤ w.openRet then [RTC_ADDRESS] else [] := by
  rcases h with h | ⟨h1, h2⟩
  · have h0 : ¬ (0 ≤ w.openRet) := by omega
    simp [mainFrom, mainRun, mainStep, Machine.init, i2CSetupDevice, h, h0, smbusOf,
      slaveAddrsOf]
  · have h0 : ¬ (w.openRet < 0) := by omega
    simp [mainFrom, mainRun, mainStep, Machine.init, i2CSetupDevice, h0, h1, h2, smbusOf,
      slaveAddrsOf]

theorem mainFrom_one_ok (w : World) (h1 : 0 ≤ w.openRet) (h2 : 0 ≤ w.slaveRet) :
    (mainFrom w 1).pc = Pc.enable ∧ (mainFrom w 1).fd = w.openRet ∧ (mainFrom w 1).txn = 0 ∧
    (mainFrom w 1).returned = none ∧
    (mainFrom w 1).trace =
      [Event.openDev "/dev/i2c-1" w.openRet, Event.ioctlSlave w.openRet RTC_ADDRESS w.slaveRet] := by
  have h1n : ¬ (w.openRet < 0) := by omega
  have h2n : ¬ (w.slaveRet < 0) := by omega
  simp [mainFrom, mainRun, mainStep, Machine.init, i2CSetupDevice, h1n, h2n]

theorem mainFrom_two_ok (w : World) (h1 : 0 ≤ w.openRet) (h2 : 0 ≤ w.slaveRet) :
    (mainFrom w 2).pc = (if (w.bus 0).status < 0 then Pc.cleanup else Pc.loop) ∧
    (mainFrom w 2).fd = w.openRet ∧ (mainFrom w 2).txn = 1 ∧
    (mainFrom w 2).returned = none ∧
    (mainFrom w 2).trace =
      [Event.openDev "/dev/i2c-1" w.openRet, Event.ioctlSlave w.openRet RTC_ADDRESS w.slaveRet,
       Event.ioctlSmbus w.openRet I2C_SMBUS_WRITE ADDR_SEC I2C_SMBUS_BYTE_DATA
         (some START_32KHZ) (w.bus 0).status]
      ++ (if (w.bus 0).status < 0 then [Event.printf "Error writing data\n"] else []) := by
  obtain ⟨a1, a2, a3, a4, a5⟩ := mainFrom_one_ok w h1 h2
  have e : mainFrom w 2 = mainStep w (mainFrom w 1) := mainFrom_add w 1 1
  rw [e]
  by_cases h3 : (w.bus 0).status < 0 <;>
    simp [mainStep, a1, a2, a3, a4, a5, h3, i2c_smbus_write_byte_data, i2c_smbus_access,
      ADDR_SEC, START_32KHZ]

theorem osc_value_bits : ∀ c : Nat, c < 256 →
    (START_32KHZ = (c ||| 0x80) ↔ c &&& 0x7F = 0) := by
  decide

/-! ## The claims on main -/

/-- C7, as stated, fails when the seconds register holds 0x25: `main` issues
one write of 0x80 to register 0x00 and no read before it, so the byte written
is not 0x25 | 0x80 = 0xA5. -/
theorem oscillator_write_not_rmw :
    smbusOf (mainFrom (constWorld 3 ⟨0, 0x25⟩) 2).trace = [writeTxn ADDR_SEC 0x80] ∧
    writeTxn ADDR_SEC 0x80 ≠ writeTxn ADDR_SEC (0x25 ||| 0x80) := by
  decide

/-- C7 as amended: when setup succeeds, `main` enables the oscillator with a
single byte-data write and no read before it; whatever the bus delivers and
for every register content `c`, the byte written to register 0x00 is the
constant 0x80: bit 7 set, bits 6-0 zero, which equals `c | 0x80` exactly when
bits 6-0 of `c` are zero. -/
theorem oscillator_write_constant (w : World) (c : Nat) (h1 : 0 ≤ w.openRet)
    (h2 : 0 ≤ w.slaveRet) (hc : c < 256) :
    smbusOf (mainFrom w 1).trace = [] ∧
    smbusOf (mainFrom w 2).trace = [writeTxn ADDR_SEC 0x80] ∧
    Event.ioctlSmbus w.openRet I2C_SMBUS_WRITE 0x00 I2C_SMBUS_BYTE_DATA (some 0x80)
      (w.bus 0).status ∈ (mainFrom w 2).trace ∧
    START_32KHZ &&& 0x80 = 0x80 ∧ START_32KHZ &&& 0x7F = 0 ∧
    (START_32KHZ = (c ||| 0x80) ↔ c &&& 0x7F = 0) := by
  obtain ⟨_, _, _, _, a5⟩ := mainFrom_one_ok w h1 h2
  obtain ⟨_, _, _, _, b5⟩ := mainFrom_two_ok w h1 h2
  refine ⟨?_, ?_, ?_, by decide, by decide, osc_value_bits c hc⟩
  · rw [a5]; rfl
  · rw [b5, smbusOf_append]
    by_cases h3 : (w.bus 0).status < 0 <;> simp [h3, smbusOf, writeTxn, START_32KHZ]
  · rw [b5]
    simp [ADDR_SEC, START_32KHZ]

/-- Witness of the amended C7 in a world whose registers all hold 0x25. -/
theorem oscillator_write_constant_witness :
    smbusOf (mainFrom (constWorld 3 ⟨0, 0x25⟩) 2).trace = [writeTxn ADDR_SEC 0x80] ∧
    ¬ (0x25 &&& 0x7F = 0) ∧ START_32KHZ ≠ (0x25 ||| 0x80) :=
  have h := oscillator_write_constant (constWorld 3 ⟨0, 0x25⟩) 0x25
    (by decide) (by decide) (by decide)
  ⟨h.2.1, by decide, fun e => absurd (h.2.2.2.2.2.mp e) (by decide)⟩

/-- C8 fails on the code, at two places.  When `open` returns 3 and the address
selection fails, `main` returns with descriptor 3 opened and never closed.
When `open` returns 0, setup succeeds and the oscillator write fails, `main`
returns with descriptor 0 opened and never closed.  With descriptor 3 on that
last path it is closed once. -/
theorem main_leaks_descriptor :
    ((mainFrom ⟨3, -1, fun _ => ⟨0, 0⟩, "EIO"⟩ 2).pc = Pc.halted ∧
     (mainFrom ⟨3, -1, fun _ => ⟨0, 0⟩, "EIO"⟩ 2).returned = some 0 ∧
     opensOf (mainFrom ⟨3, -1, fun _ => ⟨0, 0⟩, "EIO"⟩ 2).trace = [3] ∧
     closesOf (mainFrom ⟨3, -1, fun _ => ⟨0, 0⟩, "EIO"⟩ 2).trace = []) ∧
    ((mainFrom (constWorld 0 ⟨-1, 0⟩) 3).pc = Pc.halted ∧
     (mainFrom (constWorld 0 ⟨-1, 0⟩) 3).returned = some 0 ∧
     opensOf (mainFrom (constWorld 0 ⟨-1, 0⟩) 3).trace = [0] ∧
     closesOf (mainFrom (constWorld 0 ⟨-1, 0⟩) 3).trace = []) ∧
    ((mainFrom (constWorld 3 ⟨-1, 0⟩) 3).pc = Pc.halted ∧
     opensOf (mainFrom (constWorld 3 ⟨-1, 0⟩) 3).trace = [3] ∧
     closesOf (mainFrom (constWorld 3 ⟨-1, 0⟩) 3).trace = [3]) := by
  decide

/-- C9: in every world `main` selects device address 0x6F on the opened
descriptor; if setup fails no SMBus transaction is ever issued; otherwise the
first transaction is the byte-data write of 0x80 to register 0x00; if that
write returns a negative status it stays the only transaction; otherwise after
`k` poll cycles the transactions are that write followed by `k` times the
byte-data reads of registers 0x00, 0x01, 0x02, whatever the reads return. -/
theorem main_transactions (w : World) :
    RTC_ADDRESS = 0x6F ∧
    (∀ n, slaveAddrsOf (mainFrom w (n + 1)).trace =
      if 0 ≤ w.openRet then [RTC_ADDRESS] else []) ∧
    ((w.openRet < 0 ∨ (0 ≤ w.openRet ∧ w.slaveRet < 0)) →
      ∀ n, smbusOf (mainFrom w n).trace = []) ∧
    (0 ≤ w.openRet → 0 ≤ w.slaveRet →
      smbusOf (mainFrom w 0).trace = [] ∧ smbusOf (mainFrom w 1).trace = [] ∧
      smbusOf (mainFrom w 2).trace = [writeTxn 0x00 0x80] ∧
      ((w.bus 0).status < 0 → ∀ n, smbusOf (mainFrom w (n + 2)).trace = [writeTxn 0x00 0x80]) ∧
      (0 ≤ (w.bus 0).status → ∀ k,
        smbusOf (mainFrom w (k + 2)).trace = writeTxn 0x00 0x80 :: pollTxns k ∧
        (mainFrom w (k + 2)).txn = 1 + 3 * k)) ∧
    pollTxns 1 = [readTxn 0x00, readTxn 0x01, readTxn 0x02] := by
  have hw2 : 0 ≤ w.openRet → 0 ≤ w.slaveRet →
      smbusOf (mainFrom w 2).trace = [writeTxn 0x00 0x80] := by
    intro h1 h2
    obtain ⟨_, _, _, _, b5⟩ := mainFrom_two_ok w h1 h2
    rw [b5, smbusOf_append]
    by_cases h3 : (w.bus 0).status < 0 <;>
      simp [h3, smbusOf, writeTxn, START_32KHZ, ADDR_SEC]
  refine ⟨rfl, ?_, ?_, ?_, rfl⟩
  · intro n
    by_cases hf : w.openRet < 0 ∨ (0 ≤ w.openRet ∧ w.slaveRet < 0)
    · obtain ⟨f1, _, _, f4⟩ := mainFrom_one_fail w hf
      rw [Nat.add_comm, mainFrom_add, (run_cleanup w _ f1 n).2.1, f4]
    · have h1 : 0 ≤ w.openRet := by omega
      have h2 : 0 ≤ w.slaveRet := by omega
      obtain ⟨b1, _, _, _, b5⟩ := mainFrom_two_ok w h1 h2
      obtain ⟨_, _, _, _, a5⟩ := mainFrom_one_ok w h1 h2
      have hs2 : slaveAddrsOf (mainFrom w 2).trace = [RTC_ADDRESS] := by
        rw [b5, slaveAddrsOf_append]
        by_cases h3 : (w.bus 0).status < 0 <;> simp [h3, slaveAddrsOf]
      cases n with
      | zero => rw [a5]; simp [slaveAddrsOf, h1]
      | succ k =>
        have e : k + 1 + 1 = 2 + k := by omega
        rw [e, mainFrom_add]
        by_cases h3 : (w.bus 0).status < 0
        · rw [if_pos h3] at b1
          cases k with
          | zero => simpa [mainRun, h1] using hs2
          | succ j =>
            have e2 : j + 1 = 1 + j := by omega
            rw [e2, mainRun_add]
            have hh := run_cleanup w _ b1 0
            rw [run_halted w _ hh.2.2.1 j, (run_cleanup w _ b1 1).2.1, hs2]
            simp [h1]
        · rw [if_neg h3] at b1
          rw [(run_loop w k _ b1).2.2.2.2.2.2, hs2]
          simp [h1]
  · intro hf n
    obtain ⟨f1, _, f3, _⟩ := mainFrom_one_fail w hf
    cases n with
    | zero => rfl
    | succ k => rw [Nat.add_comm, mainFrom_add, (run_cleanup w _ f1 k).1, f3]
  · intro h1 h2
    obtain ⟨b1, _, b3, _, _⟩ := mainFrom_two_ok w h1 h2
    obtain ⟨_, _, _, _, a5⟩ := mainFrom_one_ok w h1 h2
    refine ⟨rfl, by rw [a5]; rfl, hw2 h1 h2, ?_, ?_⟩
    · intro h3 n
      rw [if_pos h3] at b1
      rw [Nat.add_comm, mainFrom_add, (run_cleanup w _ b1 n).1, hw2 h1 h2]
    · intro h3 k
      have h3n : ¬ ((w.bus 0).status < 0) := by omega
      rw [if_neg h3n] at b1
      obtain ⟨_, _, _, r4, r5, _, _⟩ := run_loop w k _ b1
      rw [Nat.add_comm, mainFrom_add, r5, r4, hw2 h1 h2, b3]
      simp

/-- Witness of C9: with setup and the write succeeding and every read failing,
two poll cycles issue the write and then six reads, three per cycle; with the
address selection failing nothing is issued. -/
theorem main_transactions_witness :
    smbusOf (mainFrom ⟨3, 0, fun k => if k = 0 then ⟨0, 0⟩ else ⟨-1, 0⟩, "EIO"⟩ (2 + 2)).trace =
      [writeTxn 0x00 0x80, readTxn 0x00, readTxn 0x01, readTxn 0x02,
       readTxn 0x00, readTxn 0x01, readTxn 0x02] ∧
    smbusOf (mainFrom ⟨3, -1, fun _ => ⟨0, 0⟩, "EIO"⟩ 5).trace = [] :=
  ⟨((((main_transactions ⟨3, 0, fun k => if k = 0 then ⟨0, 0⟩ else ⟨-1, 0⟩, "EIO"⟩).2.2.2.1
      (by decide) (by decide)).2.2.2.2 (by decide)) 2).1,
   (main_transactions ⟨3, -1, fun _ => ⟨0, 0⟩, "EIO"⟩).2.2.1 (Or.inr (by decide)) 5⟩

/-- C10: once `main` is at the head of `while(1)`, every block it runs is a
pass of the loop body that ends at the head of the loop again, whatever the
reads return; so when setup and the oscillator write succeed, after any
number of further blocks `main` is still polling, has not returned and has
closed no descriptor. -/
theorem polling_never_left (w : World) (h1 : 0 ≤ w.openRet) (h2 : 0 ≤ w.slaveRet)
    (h3 : 0 ≤ (w.bus 0).status) :
    (mainFrom w 2).pc = Pc.loop ∧
    (∀ m : Machine, m.pc = Pc.loop → (mainStep w m).pc = Pc.loop ∧
      (mainStep w m).returned = m.returned) ∧
    (∀ n, (mainFrom w (n + 2)).pc = Pc.loop ∧ (mainFrom w (n + 2)).returned = none ∧
      closesOf (mainFrom w (n + 2)).trace = []) := by
  obtain ⟨b1, _, _, b4, b5⟩ := mainFrom_two_ok w h1 h2
  have h3n : ¬ ((w.bus 0).status < 0) := by omega
  rw [if_neg h3n] at b1 b5
  refine ⟨b1, ?_, ?_⟩
  · intro m hm
    exact ⟨(step_loop w m hm).1, (step_loop w m hm).2.2.1⟩
  · intro n
    obtain ⟨r1, _, r3, _, _, r6, _⟩ := run_loop w n _ b1
    rw [Nat.add_comm, mainFrom_add]
    refine ⟨r1, r3.trans b4, ?_⟩
    rw [r6, b5]
    simp [closesOf]

/-- Witness of C10: descriptor 3, every transaction failing except the
oscillator write; after the setup, the write and five further blocks `main` is
at the head of the loop. -/
theorem polling_never_left_witness :
    (mainFrom ⟨3, 0, fun k => if k = 0 then ⟨0, 0⟩ else ⟨-1, 0⟩, "EIO"⟩ (5 + 2)).pc = Pc.loop ∧
    (mainFrom ⟨3, 0, fun k => if k = 0 then ⟨0, 0⟩ else ⟨-1, 0⟩, "EIO"⟩ (5 + 2)).returned = none :=
  have h := polling_never_left ⟨3, 0, fun k => if k = 0 then ⟨0, 0⟩ else ⟨-1, 0⟩, "EIO"⟩
    (by decide) (by decide) (by decide)
  ⟨(h.2.2 5).1, (h.2.2 5).2.1⟩

end RtcI2c
